import Mathlib

/-!
Shallow embedding of the st7735-async-low display-driver core
(command encoder, SPI write/read transports, packed configuration
values) together with theorems settling the specification claims.

Machine integers (`u8`, `u16`, `u32`) are embedded as `Nat` with the
truncating casts of the source made explicit (`% 256`, `% 2 ^ 32`,
`&&& 0xFF`, ...).  Asynchronous operations are embedded as explicit
state-passing functions over traces, and the hardware-busy polling of
the example backend as functions over a discrete time line.
-/

namespace St7735

/-! ## Packed configuration values (`command_structs.rs`) -/

/-- `Colmod` from `command_structs.rs`: the color-depth enumeration. -/
inductive Colmod where
  | R4G4B4
  | R5G6B5
  | R6G6B6
  | Unknown
deriving DecidableEq, Repr

/-- `From<Colmod> for u8`: the discriminant values of the Rust enum. -/
def Colmod.toU8 : Colmod → Nat
  | .R4G4B4 => 0b011
  | .R5G6B5 => 0b101
  | .R6G6B6 => 0b110
  | .Unknown => 0b111

/-- `From<u8> for Colmod`: the `match` in `command_structs.rs` lines
134-147, mapping the three known discriminants back and everything
else to `Unknown`. -/
def Colmod.fromU8 (raw : Nat) : Colmod :=
  if raw = 0b011 then .R4G4B4
  else if raw = 0b101 then .R5G6B5
  else if raw = 0b110 then .R6G6B6
  else .Unknown

/-- `RowOrder` bit type: `zero: TopToBottom, one: BottomToTop`. -/
inductive RowOrder where
  | TopToBottom
  | BottomToTop
deriving DecidableEq, Repr

/-- `define_pub_bit_type!`-generated `to_bool` (zero variant ↦ `false`,
one variant ↦ `true`). -/
def RowOrder.toBool : RowOrder → Bool
  | .TopToBottom => false
  | .BottomToTop => true

/-- `ColumnOrder` bit type: `zero: LeftToRight, one: RightToLeft`. -/
inductive ColumnOrder where
  | LeftToRight
  | RightToLeft
deriving DecidableEq, Repr

def ColumnOrder.toBool : ColumnOrder → Bool
  | .LeftToRight => false
  | .RightToLeft => true

/-- `RowColumnSwap` bit type: `zero: Unswapped, one: Swapped`. -/
inductive RowColumnSwap where
  | Unswapped
  | Swapped
deriving DecidableEq, Repr

def RowColumnSwap.toBool : RowColumnSwap → Bool
  | .Unswapped => false
  | .Swapped => true

/-- `ColorComponentOrder` bit type: `zero: RedGreenBlue,
one: BlueGreenRed`. -/
inductive ColorComponentOrder where
  | RedGreenBlue
  | BlueGreenRed
deriving DecidableEq, Repr

def ColorComponentOrder.toBool : ColorComponentOrder → Bool
  | .RedGreenBlue => false
  | .BlueGreenRed => true

/-- Bitwise complement on a `u8`, i.e. `!x` in Rust for `x: u8`. -/
def u8Not (x : Nat) : Nat := 255 ^^^ x

/-- The `set_*` body generated by the `bit_field!` macro: if the value's
`to_bool()` is true the bit at `i` is cleared (`data &= !(1 << i)`),
otherwise it is set (`data |= 1 << i`). -/
def bitFieldSet (data : Nat) (i : Nat) (valueBool : Bool) : Nat :=
  if valueBool then data &&& u8Not (1 <<< i) else data ||| (1 <<< i)

/-- The getter body generated by `bit_field!`:
`from_bool((data >> i) & 1 == 1)`, where `from_bool(b)` yields the
zero variant when `b` is true. -/
def bitFieldGet (data : Nat) (i : Nat) : Bool :=
  (data >>> i) &&& 1 = 1

/-- `Madctl` from `command_structs.rs`: a packed `u8`. -/
structure Madctl where
  data : Nat
deriving DecidableEq, Repr

/-- `Madctl::default()`: `data = 0`. -/
def Madctl.default : Madctl := ⟨0⟩

/-- `From<Madctl> for u8`. -/
def Madctl.toU8 (m : Madctl) : Nat := m.data

/-- `bit_field!(row_address_order, type: RowOrder, bit_offset: 7)`. -/
def Madctl.setRowAddressOrder (m : Madctl) (v : RowOrder) : Madctl :=
  ⟨bitFieldSet m.data 7 v.toBool⟩

/-- `bit_field!(column_address_order, type: ColumnOrder, bit_offset: 6)`. -/
def Madctl.setColumnAddressOrder (m : Madctl) (v : ColumnOrder) : Madctl :=
  ⟨bitFieldSet m.data 6 v.toBool⟩

/-- `bit_field!(row_column_swap, type: RowColumnSwap, bit_offset: 5)`. -/
def Madctl.setRowColumnSwap (m : Madctl) (v : RowColumnSwap) : Madctl :=
  ⟨bitFieldSet m.data 5 v.toBool⟩

/-- `bit_field!(vertical_refresh_order, type: RowOrder, bit_offset: 4)`. -/
def Madctl.setVerticalRefreshOrder (m : Madctl) (v : RowOrder) : Madctl :=
  ⟨bitFieldSet m.data 4 v.toBool⟩

/-- `bit_field!(horizontal_refresh_order, type: ColumnOrder, bit_offset: 2)`. -/
def Madctl.setHorizontalRefreshOrder (m : Madctl) (v : ColumnOrder) : Madctl :=
  ⟨bitFieldSet m.data 2 v.toBool⟩

/-- `bit_field!(rgb_order, type: ColorComponentOrder, bit_offset: 3)`. -/
def Madctl.setRgbOrder (m : Madctl) (v : ColorComponentOrder) : Madctl :=
  ⟨bitFieldSet m.data 3 v.toBool⟩

/-- Getter `row_address_order()`. -/
def Madctl.rowAddressOrder (m : Madctl) : RowOrder :=
  if bitFieldGet m.data 7 then .TopToBottom else .BottomToTop

/-- Getter `row_column_swap()`. -/
def Madctl.rowColumnSwap (m : Madctl) : RowColumnSwap :=
  if bitFieldGet m.data 5 then .Unswapped else .Swapped

end St7735

namespace St7735

/-! ## Claim theorems about the packed configuration values -/

/-- C7: starting from the default orientation value, setting
row-order=bottom-to-top, column-order=right-to-left, swap=unswapped,
vertical-refresh=top-to-bottom, horizontal-refresh=left-to-right and
RGB-order=red-green-blue yields the packed raw byte `0x3C`. -/
theorem claim7_madctl_packs_to_3C :
    (((((((Madctl.default.setRowAddressOrder .BottomToTop
      ).setColumnAddressOrder .RightToLeft
      ).setRowColumnSwap .Unswapped
      ).setVerticalRefreshOrder .TopToBottom
      ).setHorizontalRefreshOrder .LeftToRight
      ).setRgbOrder .RedGreenBlue)).toU8 = 0x3C := by
  decide

/-- C8 counterexample: the claim "for every raw byte, converting it to
a value and back yields the same byte" fails at the raw byte `0x00`:
decoding `0x00` yields `Colmod::Unknown`, which re-encodes as `0b111`,
not `0x00`. -/
theorem claim8_counterexample_byte_roundtrip_fails_at_zero :
    Colmod.toU8 (Colmod.fromU8 0) ≠ 0 := by
  decide

/-- C8 (amended): encode-then-decode is the identity on every `Colmod`
value (including `Unknown`), and decode-then-encode of a raw byte is
the identity exactly when the byte is one of the four discriminants
`0b011`, `0b101`, `0b110`, `0b111`; every other byte decodes to
`Unknown`, which re-encodes as `0b111`.  The packed orientation value
`Madctl` converts to its raw byte by exposing its stored byte
unchanged, so its value-to-byte conversion loses nothing. -/
theorem claim8_roundtrip_amended :
    (∀ c : Colmod, Colmod.fromU8 (Colmod.toU8 c) = c) ∧
    (∀ b : Nat, Colmod.toU8 (Colmod.fromU8 b) = b ↔
      (b = 0b011 ∨ b = 0b101 ∨ b = 0b110 ∨ b = 0b111)) ∧
    (∀ d : Nat, (Madctl.mk d).toU8 = d) := by
  refine ⟨fun c => by cases c <;> rfl, fun b => ?_, fun d => rfl⟩
  constructor
  · intro h
    by_cases h3 : b = 0b011
    · exact Or.inl h3
    by_cases h5 : b = 0b101
    · exact Or.inr (Or.inl h5)
    by_cases h6 : b = 0b110
    · exact Or.inr (Or.inr (Or.inl h6))
    refine Or.inr (Or.inr (Or.inr ?_))
    simp only [Colmod.fromU8, h3, h5, h6, if_false] at h
    exact h.symm
  · rintro (rfl | rfl | rfl | rfl) <;> rfl

/-- Witness for C8 (amended) at the value `R5G6B5` and the raw byte
`0b100`. -/
theorem claim8_roundtrip_amended_witness :
    Colmod.fromU8 (Colmod.toU8 .R5G6B5) = .R5G6B5 ∧
    (Colmod.toU8 (Colmod.fromU8 0b100) = 0b100 ↔
      ((0b100 : Nat) = 0b011 ∨ (0b100 : Nat) = 0b101 ∨
       (0b100 : Nat) = 0b110 ∨ (0b100 : Nat) = 0b111)) :=
  ⟨claim8_roundtrip_amended.1 .R5G6B5, claim8_roundtrip_amended.2.1 0b100⟩

/-- C9: decoding a color-mode raw byte maps `0b011` to `R4G4B4`,
`0b101` to `R5G6B5`, `0b110` to `R6G6B6`, and `0b111` as well as every
other unmapped pattern to `Unknown`. -/
theorem claim9_colmod_decode (b : Nat)
    (h3 : b ≠ 0b011) (h5 : b ≠ 0b101) (h6 : b ≠ 0b110) :
    Colmod.fromU8 0b011 = .R4G4B4 ∧
    Colmod.fromU8 0b101 = .R5G6B5 ∧
    Colmod.fromU8 0b110 = .R6G6B6 ∧
    Colmod.fromU8 0b111 = .Unknown ∧
    Colmod.fromU8 b = .Unknown := by
  refine ⟨rfl, rfl, rfl, rfl, ?_⟩
  simp only [Colmod.fromU8, h3, h5, h6, if_false]

/-- Witness for C9, instantiated at the unmapped byte `0b100`. -/
theorem claim9_colmod_decode_witness :
    Colmod.fromU8 0b100 = .Unknown :=
  (claim9_colmod_decode 0b100 (by decide) (by decide) (by decide)).2.2.2.2

end St7735

namespace St7735

/-! ## Trace semantics of the write transport and the command encoder

The testing devices of the repository observe a transport as a
sequence of `DcU8` events (a byte together with the DCX mode it was
written in).  `writeU8` is `MockDevice::write_u8`: the byte is
recorded as data or command according to the current DCX mode.
`writeU8Iter` and `writeU16Iter` are `AdapterU8`'s `WriteBatch` loops
(`adapters.rs`); the `u16` case splits each value big-endian with the
truncating `as u8` casts made explicit. -/

/-- One observed wire event: a byte sent in command or in data mode. -/
inductive DcU8 where
  | command (b : Nat)
  | data (b : Nat)
deriving DecidableEq, Repr

/-- The observable transport state: the DCX mode and the event trace. -/
structure FakeSpi where
  isDataMode : Bool
  seq : List DcU8
deriving DecidableEq, Repr

/-- The state right after `Commands::new`, which drives DCX to command
mode before any byte is written. -/
def FakeSpi.new : FakeSpi := ⟨false, []⟩

/-- `DcxPin::set_dcx_command_mode`. -/
def setDcxCommandMode (s : FakeSpi) : FakeSpi := { s with isDataMode := false }

/-- `DcxPin::set_dcx_data_mode`. -/
def setDcxDataMode (s : FakeSpi) : FakeSpi := { s with isDataMode := true }

/-- `write_u8`: record the byte under the current DCX mode. -/
def writeU8 (s : FakeSpi) (b : Nat) : FakeSpi :=
  { s with seq := s.seq ++ [if s.isDataMode then .data b else .command b] }

/-- `AdapterU8::write_u8_iter`: one `write_u8` per element, in order. -/
def writeU8Iter (s : FakeSpi) (bs : List Nat) : FakeSpi :=
  bs.foldl writeU8 s

/-- `(element >> 8) as u8` for a `u16` element. -/
def u16Hi (v : Nat) : Nat := (v >>> 8) % 256

/-- `(element & 0xFF) as u8` for a `u16` element. -/
def u16Lo (v : Nat) : Nat := v &&& 0xFF

/-- `AdapterU8::write_u16_iter`: per element, the high byte then the
low byte (big-endian). -/
def writeU16Iter (s : FakeSpi) (vs : List Nat) : FakeSpi :=
  vs.foldl (fun s v => writeU8 (writeU8 s (u16Hi v)) (u16Lo v)) s

/-- `Commands::command`: write the opcode byte (the encoder is in
command mode at this point, so it is recorded as a command byte). -/
def command (s : FakeSpi) (cmd : Nat) : FakeSpi := writeU8 s cmd

/-- `Commands::command_with_u16_slice` (`commands.rs` lines 93-99). -/
def commandWithU16Slice (s : FakeSpi) (cmd : Nat) (ps : List Nat) : FakeSpi :=
  setDcxCommandMode (writeU16Iter (setDcxDataMode (command s cmd)) ps)

/-- `Commands::command_with_u16_pair` (`commands.rs` lines 84-91). -/
def commandWithU16Pair (s : FakeSpi) (cmd first second : Nat) : FakeSpi :=
  setDcxCommandMode
    (writeU16Iter (setDcxDataMode (command s cmd)) [first, second])

/-- `Commands::caset`. -/
def caset (s : FakeSpi) (begin_ end_ : Nat) : FakeSpi :=
  commandWithU16Pair s 0x2A begin_ end_

/-- `Commands::ramwr`: write opcode `0x2C`, switch to data mode and
hand out the `RamWriter` session (represented by the resulting state). -/
def ramwr (s : FakeSpi) : FakeSpi := setDcxDataMode (command s 0x2C)

/-- `Commands::rgbset`: write opcode `0x2D`, switch to data mode. -/
def rgbset (s : FakeSpi) : FakeSpi := setDcxDataMode (command s 0x2D)

/-- `Drop for RamWriter` (`commands.rs` lines 178-181): restore DCX to
command mode. -/
def ramWriterDrop (s : FakeSpi) : FakeSpi := setDcxCommandMode s

/-- One operation performed through an open `RamWriter` session, which
forwards `write_u8` / `write_u8_iter` / `write_u16_iter` unchanged to
the underlying transport. -/
inductive WriterOp where
  | u8 (b : Nat)
  | u8s (bs : List Nat)
  | u16s (vs : List Nat)

/-- Run one `RamWriter` operation. -/
def runWriterOp (s : FakeSpi) : WriterOp → FakeSpi
  | .u8 b => writeU8 s b
  | .u8s bs => writeU8Iter s bs
  | .u16s vs => writeU16Iter s vs

/-- Run a sequence of `RamWriter` operations. -/
def runWriter (s : FakeSpi) (ops : List WriterOp) : FakeSpi :=
  ops.foldl runWriterOp s

/-- The bytes an operation list puts on the wire, flattened. -/
def writerOpBytes : WriterOp → List Nat
  | .u8 b => [b]
  | .u8s bs => bs
  | .u16s vs => vs.flatMap (fun v => [u16Hi v, u16Lo v])

def writerBytes (ops : List WriterOp) : List Nat :=
  ops.flatMap writerOpBytes

/-! ### Helper lemmas about the trace semantics -/

theorem writeU8_isDataMode (s : FakeSpi) (b : Nat) :
    (writeU8 s b).isDataMode = s.isDataMode := rfl

theorem writeU8_seq_data (s : FakeSpi) (b : Nat) (h : s.isDataMode = true) :
    (writeU8 s b).seq = s.seq ++ [.data b] := by
  simp [writeU8, h]

theorem writeU8Iter_data (bs : List Nat) :
    ∀ s : FakeSpi, s.isDataMode = true →
      (writeU8Iter s bs).seq = s.seq ++ bs.map .data ∧
      (writeU8Iter s bs).isDataMode = true := by
  induction bs with
  | nil => intro s h; simp [writeU8Iter, h]
  | cons b rest ih =>
    intro s h
    have hstep : (writeU8 s b).isDataMode = true := by
      rw [writeU8_isDataMode]; exact h
    have := ih (writeU8 s b) hstep
    constructor
    · calc (writeU8Iter s (b :: rest)).seq
          = (writeU8 s b).seq ++ rest.map DcU8.data := this.1
        _ = s.seq ++ (b :: rest).map DcU8.data := by
            rw [writeU8_seq_data s b h]; simp
    · exact this.2

theorem writeU16Iter_data (vs : List Nat) :
    ∀ s : FakeSpi, s.isDataMode = true →
      (writeU16Iter s vs).seq
        = s.seq ++ (vs.flatMap (fun v => [u16Hi v, u16Lo v])).map .data ∧
      (writeU16Iter s vs).isDataMode = true := by
  induction vs with
  | nil => intro s h; simp [writeU16Iter, h]
  | cons v rest ih =>
    intro s h
    have h1 : (writeU8 s (u16Hi v)).isDataMode = true := h
    have h2 : (writeU8 (writeU8 s (u16Hi v)) (u16Lo v)).isDataMode = true := h
    have := ih (writeU8 (writeU8 s (u16Hi v)) (u16Lo v)) h2
    constructor
    · calc (writeU16Iter s (v :: rest)).seq
          = (writeU8 (writeU8 s (u16Hi v)) (u16Lo v)).seq
              ++ (rest.flatMap (fun v => [u16Hi v, u16Lo v])).map DcU8.data :=
            this.1
        _ = s.seq
              ++ ((v :: rest).flatMap (fun v => [u16Hi v, u16Lo v])).map
                  DcU8.data := by
            rw [writeU8_seq_data _ _ h1, writeU8_seq_data s _ h]
            simp
    · exact this.2

theorem runWriter_data (ops : List WriterOp) :
    ∀ s : FakeSpi, s.isDataMode = true →
      (runWriter s ops).seq = s.seq ++ (writerBytes ops).map .data ∧
      (runWriter s ops).isDataMode = true := by
  induction ops with
  | nil => intro s h; simp [runWriter, writerBytes, h]
  | cons op rest ih =>
    intro s h
    have hop : (runWriterOp s op).seq = s.seq ++ (writerOpBytes op).map .data ∧
        (runWriterOp s op).isDataMode = true := by
      cases op with
      | u8 b => exact ⟨writeU8_seq_data s b h, h⟩
      | u8s bs => exact writeU8Iter_data bs s h
      | u16s vs => exact writeU16Iter_data vs s h
    have := ih (runWriterOp s op) hop.2
    constructor
    · calc (runWriter s (op :: rest)).seq
          = (runWriterOp s op).seq ++ (writerBytes rest).map DcU8.data := this.1
        _ = s.seq ++ (writerBytes (op :: rest)).map DcU8.data := by
            rw [hop.1]; simp [writerBytes]
    · exact this.2

theorem ramwr_state (s : FakeSpi) (h : s.isDataMode = false) :
    (ramwr s).seq = s.seq ++ [.command 0x2C] ∧
    (ramwr s).isDataMode = true := by
  simp [ramwr, setDcxDataMode, command, writeU8, h]

theorem u16Hi_of_lt (v : Nat) (h : v < 65536) : u16Hi v = v >>> 8 := by
  have hv : v >>> 8 < 256 := by
    rw [Nat.shiftRight_eq_div_pow]
    exact Nat.div_lt_of_lt_mul (by norm_num at h ⊢; omega)
  exact Nat.mod_eq_of_lt hv

/-! ## Pin configuration of the example backend (`spi.rs` of the
stm32f3348 example)

`Read::start_reading` disables the SPI peripheral and reconfigures the
pins for bit-banged input; `Drop for BitsReader` reconfigures the pins
for the SPI peripheral and re-enables it, i.e. restores the write
configuration that `initialize_spi1` established. -/

/-- The mutable pin/peripheral configuration touched by the read
session: whether SPI1 is enabled and whether the pins are in bit-bang
mode (as opposed to the SPI alternate function). -/
structure SpiPinConfig where
  spiEnabled : Bool
  pinsBitbang : Bool
deriving DecidableEq, Repr

/-- The configuration used for writing, established by
`initialize_spi1` (`set_pins_spi1(); enable_spi1()`). -/
def spiWriteConfig : SpiPinConfig := ⟨true, false⟩

/-- `Spi::start_reading`: `disable_spi1(); set_pins_bitbang()`. -/
def startReadingPins (_ : SpiPinConfig) : SpiPinConfig := ⟨false, true⟩

/-- `Drop for BitsReader`: `set_pins_spi1(); enable_spi1()`. -/
def bitsReaderDropPins (_ : SpiPinConfig) : SpiPinConfig := ⟨true, false⟩

/-- Performing read cycles (clock toggles and input sampling in
`BitsReaderResult::poll`) leaves the pin/peripheral configuration
untouched: the poll body only writes the clock output value and reads
the input data register. -/
def readCyclesPins (p : SpiPinConfig) (_ : Nat) : SpiPinConfig := p

/-! ## Claim theorems about the command encoder traces -/

/-- C4: for a fixed-parameter command the wire sequence is exactly the
opcode byte in command mode followed by the declared 16-bit parameters
in order, each split big-endian into `(v >> 8, v & 0xFF)`; command
mode is restored afterwards.  In particular
`caset(0x1234, 0x5678)` emits `[0x2A, 0x12, 0x34, 0x56, 0x78]`. -/
theorem claim4_fixed_command_wire (s : FakeSpi) (cmd : Nat) (ps : List Nat)
    (first second v : Nat) (hs : s.isDataMode = false) (hv : v < 65536) :
    ((commandWithU16Slice s cmd ps).seq
        = s.seq ++ DcU8.command cmd ::
            (ps.flatMap (fun p => [u16Hi p, u16Lo p])).map DcU8.data ∧
      (commandWithU16Slice s cmd ps).isDataMode = false) ∧
    commandWithU16Pair s cmd first second
      = commandWithU16Slice s cmd [first, second] ∧
    (u16Hi v = v >>> 8 ∧ u16Lo v = v &&& 0xFF) ∧
    (caset FakeSpi.new 0x1234 0x5678).seq
      = [.command 0x2A, .data 0x12, .data 0x34, .data 0x56, .data 0x78] ∧
    (caset FakeSpi.new 0x1234 0x5678).isDataMode = false := by
  have hcmd : (setDcxDataMode (command s cmd)).seq = s.seq ++ [.command cmd] ∧
      (setDcxDataMode (command s cmd)).isDataMode = true := by
    simp [setDcxDataMode, command, writeU8, hs]
  have hw := writeU16Iter_data ps (setDcxDataMode (command s cmd)) hcmd.2
  refine ⟨⟨?_, rfl⟩, rfl, ⟨u16Hi_of_lt v hv, rfl⟩, by decide, by decide⟩
  show (writeU16Iter (setDcxDataMode (command s cmd)) ps).seq = _
  rw [hw.1, hcmd.1]
  simp

/-- Witness for C4 at `s = FakeSpi.new`, `cmd = 0x2A`,
`ps = [0x1234, 0x5678]`, `v = 0x1234`. -/
theorem claim4_fixed_command_wire_witness :
    (commandWithU16Slice FakeSpi.new 0x2A [0x1234, 0x5678]).seq
      = [.command 0x2A, .data 0x12, .data 0x34, .data 0x56, .data 0x78] := by
  have h := claim4_fixed_command_wire FakeSpi.new 0x2A [0x1234, 0x5678]
    0x1234 0x5678 0x1234 rfl (by decide)
  rw [h.1.1]
  decide

/-- C6: after `ramwr` (opcode `0x2C`), every byte and 16-bit value
written through the returned writer reaches the wire unchanged and in
order as data bytes; a batch write of an empty sequence emits nothing
and leaves the transport state unchanged; and the concrete scenario
`ramwr(); 0x01; [0x23,0x45]; []; u16s [0x6789,0xABCD]` produces the
wire `[0x2C, 0x01, 0x23, 0x45, 0x67, 0x89, 0xAB, 0xCD]`. -/
theorem claim6_ramwr_passthrough (s : FakeSpi) (ops : List WriterOp)
    (hs : s.isDataMode = false) :
    (runWriter (ramwr s) ops).seq
      = s.seq ++ DcU8.command 0x2C :: (writerBytes ops).map DcU8.data ∧
    (∀ t : FakeSpi, writeU8Iter t [] = t ∧ writeU16Iter t [] = t) ∧
    (ramWriterDrop (runWriter (ramwr FakeSpi.new)
        [.u8 0x01, .u8s [0x23, 0x45], .u8s [], .u16s [0x6789, 0xABCD]])).seq
      = [.command 0x2C, .data 0x01, .data 0x23, .data 0x45,
         .data 0x67, .data 0x89, .data 0xAB, .data 0xCD] := by
  refine ⟨?_, fun t => ⟨rfl, rfl⟩, by decide⟩
  have hr := ramwr_state s hs
  have hops := runWriter_data ops (ramwr s) hr.2
  rw [hops.1, hr.1]
  simp

/-- Witness for C6 at `s = FakeSpi.new` and the concrete scenario
operation list. -/
theorem claim6_ramwr_passthrough_witness :
    (runWriter (ramwr FakeSpi.new)
        [.u8 0x01, .u8s [0x23, 0x45], .u8s [], .u16s [0x6789, 0xABCD]]).seq
      = FakeSpi.new.seq ++ DcU8.command 0x2C ::
          (writerBytes
            [.u8 0x01, .u8s [0x23, 0x45], .u8s [],
             .u16s [0x6789, 0xABCD]]).map DcU8.data := by
  exact (claim6_ramwr_passthrough FakeSpi.new
    [.u8 0x01, .u8s [0x23, 0x45], .u8s [], .u16s [0x6789, 0xABCD]] rfl).1

/-- C3: releasing a scoped writer (`Drop for RamWriter`) always leaves
the transport in command mode, no matter which operations (or none)
the session performed, for `ramwr` and `rgbset` sessions alike, and
even for an unused writer; releasing the scoped reader
(`Drop for BitsReader`) always restores the pin configuration to the
SPI write configuration, which equals the configuration prior to
`start_reading` whenever reading started from the write
configuration. -/
theorem claim3_scoped_release_restores_mode (s : FakeSpi)
    (ops : List WriterOp) (p : SpiPinConfig) (n : Nat) :
    (ramWriterDrop (runWriter (ramwr s) ops)).isDataMode = false ∧
    (ramWriterDrop (runWriter (rgbset s) ops)).isDataMode = false ∧
    (ramWriterDrop (ramwr s)).isDataMode = false ∧
    bitsReaderDropPins (readCyclesPins (startReadingPins p) n)
      = spiWriteConfig ∧
    (p = spiWriteConfig →
      bitsReaderDropPins (readCyclesPins (startReadingPins p) n) = p) := by
  exact ⟨rfl, rfl, rfl, rfl, fun hp => by rw [hp]; rfl⟩

/-- Witness for C3 at a used `ramwr` session and the write pin
configuration. -/
theorem claim3_scoped_release_restores_mode_witness :
    (ramWriterDrop (runWriter (ramwr FakeSpi.new)
        [.u8 0x01])).isDataMode = false ∧
    bitsReaderDropPins (readCyclesPins (startReadingPins spiWriteConfig) 25)
      = spiWriteConfig := by
  have h := claim3_scoped_release_restores_mode FakeSpi.new
    [.u8 0x01] spiWriteConfig 25
  exact ⟨h.1, h.2.2.2.2 rfl⟩

end St7735

namespace St7735

/-! ## The bit reader

`BitsReaderResult::poll` (example backend) and
`MockDeviceReader::read_bits` both run
`for _ in 0..num_bits { r = r.wrapping_shl(1) | bit }` on a `u32`
accumulator, sampling one input bit per iteration.  `readBitStep` is
one iteration with the `u32` wrap-around explicit; `readLoop` is the
loop, sampling bit `i` of the input stream at iteration `i`. -/

/-- One read cycle: `r = r.wrapping_shl(1) | bit` on a `u32`. -/
def readBitStep (r : Nat) (b : Bool) : Nat :=
  ((2 * r) % 2 ^ 32) ||| (if b then 1 else 0)

/-- The `for _ in 0..num_bits` loop, structurally recursive in the
remaining iteration count, hence total for every `num_bits`. -/
def readLoop (stream : Nat → Bool) (i r : Nat) : Nat → Nat
  | 0 => r
  | n + 1 => readLoop stream (i + 1) (readBitStep r (stream i)) n

/-- `read_bits(num_bits)`: run the loop from an accumulator of `0`,
sampling bits `0, 1, ..., num_bits - 1` of the stream. -/
def readBits (stream : Nat → Bool) (numBits : Nat) : Nat :=
  readLoop stream 0 0 numBits

/-- The same loop over an explicit list of sampled bits. -/
def readBitsFrom (r : Nat) (bits : List Bool) : Nat :=
  bits.foldl readBitStep r

def readBitsList (bits : List Bool) : Nat := readBitsFrom 0 bits

/-- The ideal MSB-first accumulation, without any wrap-around. -/
def bitsToNatFrom (r : Nat) (bits : List Bool) : Nat :=
  bits.foldl (fun r b => 2 * r + (if b then 1 else 0)) r

def bitsToNat (bits : List Bool) : Nat := bitsToNatFrom 0 bits

/-- The MSB-first bit list of width `w` representing `v`. -/
def natToBits (w v : Nat) : List Bool :=
  (List.range w).map (fun i => v.testBit (w - 1 - i))

/-- `Commands::rddid` post-processing (`commands.rs` lines 219-222):
`[(r >> 16) as u8, (r >> 8 & 0xFF) as u8, (r & 0xFF) as u8]`. -/
def rddidPost (r : Nat) : List Nat :=
  [(r >>> 16) % 256, (r >>> 8) &&& 0xFF, r &&& 0xFF]

/-- `Commands::rddid` against a transport whose reader samples the
given bit list: `read_command(0x04, 25)` writes the opcode byte under
the current DCX mode, accumulates the sampled bits and post-processes
the accumulator. -/
def rddid (s : FakeSpi) (bits : List Bool) : FakeSpi × List Nat :=
  (writeU8 s 0x04, rddidPost (readBitsList bits))

/-! ### Helper lemmas about the bit reader -/

theorem two_mul_lor_bit (k : Nat) (b : Bool) :
    2 * k ||| (if b then 1 else 0) = 2 * k + (if b then 1 else 0) := by
  cases b
  · simp
  · simp only [if_true]
    apply Nat.eq_of_testBit_eq
    intro i
    cases i with
    | zero =>
      simp [Nat.testBit_lor, Nat.testBit_zero, Nat.mul_add_mod]
    | succ j =>
      rw [Nat.testBit_lor]
      rw [Nat.testBit_add_one, Nat.testBit_add_one, Nat.testBit_add_one]
      have h1 : (2 * k) / 2 = k := by omega
      have h2 : (2 * k + 1) / 2 = k := by omega
      have h3 : (1 : Nat) / 2 = 0 := by omega
      rw [h1, h2, h3]
      simp

theorem readBitStep_eq (r : Nat) (b : Bool) :
    readBitStep r b = (2 * r + (if b then 1 else 0)) % 2 ^ 32 := by
  have hsplit : (2 * r) % 2 ^ 32 = 2 * (r % 2 ^ 31) := by
    have : (2 : Nat) ^ 32 = 2 * 2 ^ 31 := by norm_num
    rw [this, Nat.mul_mod_mul_left]
  rw [readBitStep, hsplit, two_mul_lor_bit]
  have h32 : (2 : Nat) ^ 32 = 4294967296 := by norm_num
  have h31 : (2 : Nat) ^ 31 = 2147483648 := by norm_num
  rw [h32, h31]
  cases b <;> simp <;> omega

theorem bitsToNatFrom_mod_congr (bits : List Bool) :
    ∀ r r' : Nat, r % 2 ^ 32 = r' % 2 ^ 32 →
      bitsToNatFrom r bits % 2 ^ 32 = bitsToNatFrom r' bits % 2 ^ 32 := by
  induction bits with
  | nil => intro r r' h; exact h
  | cons b rest ih =>
    intro r r' h
    apply ih
    have hmod : Nat.ModEq (2 ^ 32) r r' := h
    exact (hmod.mul_left 2).add_right _

theorem readBitsFrom_eq_mod (bits : List Bool) :
    ∀ r : Nat, r < 2 ^ 32 →
      readBitsFrom r bits = bitsToNatFrom r bits % 2 ^ 32 := by
  induction bits with
  | nil => intro r h; exact (Nat.mod_eq_of_lt h).symm
  | cons b rest ih =>
    intro r h
    show readBitsFrom (readBitStep r b) rest = _
    rw [ih (readBitStep r b)
      (by rw [readBitStep_eq]; exact Nat.mod_lt _ (by norm_num))]
    show bitsToNatFrom (readBitStep r b) rest % 2 ^ 32
      = bitsToNatFrom (2 * r + (if b then 1 else 0)) rest % 2 ^ 32
    apply bitsToNatFrom_mod_congr
    rw [readBitStep_eq, Nat.mod_mod_of_dvd _ (dvd_refl _)]

theorem bitsToNatFrom_eq (bits : List Bool) :
    ∀ r : Nat, bitsToNatFrom r bits = r * 2 ^ bits.length + bitsToNat bits := by
  induction bits with
  | nil => intro r; simp [bitsToNatFrom, bitsToNat]
  | cons b rest ih =>
    intro r
    show bitsToNatFrom (2 * r + (if b then 1 else 0)) rest = _
    rw [ih]
    have hb : bitsToNat (b :: rest)
        = bitsToNatFrom (if b then 1 else 0) rest := by
      simp [bitsToNat, bitsToNatFrom]
    rw [hb, ih]
    simp [List.length_cons, pow_succ]
    cases b <;> simp <;> ring

theorem bitsToNat_lt (bits : List Bool) : bitsToNat bits < 2 ^ bits.length := by
  induction bits with
  | nil => simp [bitsToNat, bitsToNatFrom]
  | cons b rest ih =>
    have hb : bitsToNat (b :: rest)
        = (if b then 1 else 0) * 2 ^ rest.length + bitsToNat rest := by
      have : bitsToNat (b :: rest)
          = bitsToNatFrom (if b then 1 else 0) rest := by
        simp [bitsToNat, bitsToNatFrom]
      rw [this, bitsToNatFrom_eq]
    rw [hb]
    have hlen : (b :: rest).length = rest.length + 1 := rfl
    rw [hlen, pow_succ]
    cases b <;> simp <;> omega

theorem bitsToNat_append (xs ys : List Bool) :
    bitsToNat (xs ++ ys) = bitsToNat xs * 2 ^ ys.length + bitsToNat ys := by
  have : bitsToNat (xs ++ ys) = bitsToNatFrom (bitsToNat xs) ys := by
    simp [bitsToNat, bitsToNatFrom, List.foldl_append]
  rw [this, bitsToNatFrom_eq]

theorem readBitsList_eq_mod (bits : List Bool) :
    readBitsList bits = bitsToNat bits % 2 ^ 32 :=
  readBitsFrom_eq_mod bits 0 (by norm_num)

theorem readBitsList_eq_lastThirtyTwo (bits : List Bool) :
    readBitsList bits = bitsToNat (bits.drop (bits.length - 32)) := by
  rw [readBitsList_eq_mod]
  by_cases h : bits.length ≤ 32
  · have hk : bits.length - 32 = 0 := by omega
    rw [hk, List.drop_zero]
    apply Nat.mod_eq_of_lt
    calc bitsToNat bits < 2 ^ bits.length := bitsToNat_lt bits
      _ ≤ 2 ^ 32 := Nat.pow_le_pow_right (by norm_num) h
  · set k := bits.length - 32 with hk
    have hsplit : bits = bits.take k ++ bits.drop k :=
      (List.take_append_drop k bits).symm
    have hdlen : (bits.drop k).length = 32 := by
      rw [List.length_drop]; omega
    calc bitsToNat bits % 2 ^ 32
        = bitsToNat (bits.take k ++ bits.drop k) % 2 ^ 32 := by rw [← hsplit]
      _ = (bitsToNat (bits.take k) * 2 ^ 32 + bitsToNat (bits.drop k))
            % 2 ^ 32 := by
          rw [bitsToNat_append, hdlen]
      _ = bitsToNat (bits.drop k) % 2 ^ 32 := by
          rw [Nat.add_comm, Nat.add_mul_mod_self_right]
      _ = bitsToNat (bits.drop k) := by
          apply Nat.mod_eq_of_lt
          have := bitsToNat_lt (bits.drop k)
          rw [hdlen] at this
          exact this

theorem readLoop_eq_foldl (stream : Nat → Bool) (n : Nat) :
    ∀ i r : Nat, readLoop stream i r n
      = readBitsFrom r ((List.range' i n).map stream) := by
  induction n with
  | zero => intro i r; rfl
  | succ m ih =>
    intro i r
    show readLoop stream (i + 1) (readBitStep r (stream i)) m = _
    rw [ih (i + 1) (readBitStep r (stream i))]
    rfl

theorem readBits_eq_list (stream : Nat → Bool) (n : Nat) :
    readBits stream n = readBitsList ((List.range n).map stream) := by
  show readLoop stream 0 0 n = _
  rw [readLoop_eq_foldl stream n 0 0, readBitsList, List.range_eq_range']

theorem readBitsList_small (bits : List Bool) (h : bits.length ≤ 32) :
    readBitsList bits = bitsToNat bits := by
  rw [readBitsList_eq_mod]
  apply Nat.mod_eq_of_lt
  calc bitsToNat bits < 2 ^ bits.length := bitsToNat_lt bits
    _ ≤ 2 ^ 32 := Nat.pow_le_pow_right (by norm_num) h

/-! ### Claim theorems about the bit reader -/

/-- C10: for every `num_bits` (including values above 32) the bit-read
loop is total: it is a structurally recursive function of the
iteration count, performs exactly `num_bits` sampling cycles (it
consumes precisely the first `num_bits` bits of the stream), and its
accumulator wraps on the `u32` boundary instead of overflowing, so the
result is the MSB-first accumulation of the sampled bits reduced
modulo `2 ^ 32`, i.e. the value of the last 32 bits sampled. -/
theorem claim10_read_bits_total (stream : Nat → Bool) (n : Nat) :
    readBits stream n = readBitsList ((List.range n).map stream) ∧
    ((List.range n).map stream).length = n ∧
    readBits stream n = bitsToNat ((List.range n).map stream) % 2 ^ 32 ∧
    readBits stream n
      = bitsToNat (((List.range n).map stream).drop (n - 32)) := by
  have hlen : ((List.range n).map stream).length = n := by simp
  refine ⟨readBits_eq_list stream n, hlen, ?_, ?_⟩
  · rw [readBits_eq_list stream n, readBitsList_eq_mod]
  · rw [readBits_eq_list stream n, readBitsList_eq_lastThirtyTwo, hlen]

/-- C5: `rddid` (opcode `0x04`, 25 bits) splits the 25-bit accumulator
`r` by fixed shifts into high byte `(r >> 16) & 0xFF` (bits 24-17 of
the 25-bit word, counting from 1 at the LSB), middle byte
`(r >> 8) & 0xFF` (bits 16-9) and low byte `r & 0xFF` (bits 8-1); the
opcode byte `0x04` goes out in command mode; and for the raw value
`0b0_11110000_11010010_01100001` the returned triple is
`[0xF0, 0xD2, 0x61]`. -/
theorem claim5_rddid_split (s : FakeSpi) (bits : List Bool)
    (hs : s.isDataMode = false) (hlen : bits.length = 25) :
    (rddid s bits).1.seq = s.seq ++ [.command 0x04] ∧
    (rddid s bits).2
      = [(bitsToNat bits / 2 ^ 16) % 2 ^ 8,
         (bitsToNat bits / 2 ^ 8) % 2 ^ 8,
         bitsToNat bits % 2 ^ 8] ∧
    (rddid FakeSpi.new (natToBits 25 0b0111100001101001001100001)).2
      = [0xF0, 0xD2, 0x61] := by
  refine ⟨by simp [rddid, writeU8, hs], ?_, by decide⟩
  have hsmall : readBitsList bits = bitsToNat bits :=
    readBitsList_small bits (by omega)
  show rddidPost (readBitsList bits) = _
  rw [hsmall, rddidPost]
  have hsh16 : bitsToNat bits >>> 16 = bitsToNat bits / 2 ^ 16 :=
    Nat.shiftRight_eq_div_pow _ _
  have hsh8 : bitsToNat bits >>> 8 = bitsToNat bits / 2 ^ 8 :=
    Nat.shiftRight_eq_div_pow _ _
  have hand : ∀ m : Nat, m &&& 0xFF = m % 2 ^ 8 := by
    intro m
    have h255 : (0xFF : Nat) = 2 ^ 8 - 1 := by norm_num
    rw [h255]
    exact Nat.and_pow_two_sub_one_eq_mod m 8
  rw [hsh16, hsh8, hand, hand]
  norm_num

/-- Witness for C5 at the raw 25-bit value
`0b0_11110000_11010010_01100001`. -/
theorem claim5_rddid_split_witness :
    (rddid FakeSpi.new (natToBits 25 0b0111100001101001001100001)).2
      = [0xF0, 0xD2, 0x61] :=
  (claim5_rddid_split FakeSpi.new
    (natToBits 25 0b0111100001101001001100001) rfl (by decide)).2.2

end St7735

namespace St7735

/-! ## Cancellation safety of the single-byte write (example backend)

`Spi::write_byte` starts the hardware transmission immediately and
returns a `ByteWriting` handle.  `ByteWriting::is_done` polls the SPI
busy flag once (caching a `Done` status once observed), and
`Drop for ByteWriting` runs `while !self.is_done() {}`.  The hardware
is modelled on a discrete time line: the transmission started at time
0 keeps the busy flag raised for exactly `d` polls, and the byte is
physically complete on the wire from time `d` on (clearing of the
busy flag and physical completion are the same hardware event). -/

/-- The status field of `ByteWriting`. -/
inductive ByteWritingStatus where
  | started
  | done
deriving DecidableEq, Repr

/-- The SPI busy flag over time for a transmission that takes `d`
polls: busy exactly at times `t < d`. -/
def spi1BusyAt (d t : Nat) : Bool := decide (t < d)

/-- Whether the byte physically reached the wire by time `t`. -/
def byteOnWire (d t : Nat) : Bool := decide (d ≤ t)

/-- `ByteWriting::is_done` at one instant: returns whether the write
is done together with the updated cached status. -/
def isDoneStep (busy : Bool) : ByteWritingStatus → Bool × ByteWritingStatus
  | .started => if busy then (false, .started) else (true, .done)
  | .done => (true, .done)

/-- `Drop for ByteWriting`: `while !self.is_done() {}`, polling the
busy flag at successive instants starting from `t`.  `fuel` bounds the
modelled time line; the loop exits at the first instant the busy flag
is observed clear and returns that instant. -/
def dropWait (busyAt : Nat → Bool) :
    Nat → ByteWritingStatus → Nat → Option Nat
  | 0, _, _ => none
  | fuel + 1, st, t =>
    let p := isDoneStep (busyAt t) st
    if p.1 then some t else dropWait busyAt fuel p.2 (t + 1)

theorem dropWait_busyUntil (d : Nat) :
    ∀ fuel t : Nat, t ≤ d → d - t < fuel →
      dropWait (spi1BusyAt d) fuel .started t = some d := by
  intro fuel
  induction fuel with
  | zero => intro t _ h; omega
  | succ m ih =>
    intro t ht hfuel
    by_cases hd : t = d
    · subst hd
      show dropWait (spi1BusyAt t) (m + 1) .started t = some t
      have hbusy : spi1BusyAt t t = false := by
        simp [spi1BusyAt]
      simp [dropWait, isDoneStep, hbusy]
    · have htlt : t < d := by omega
      have hbusy : spi1BusyAt d t = true := by
        simp [spi1BusyAt]; omega
      have : dropWait (spi1BusyAt d) (m + 1) .started t
          = dropWait (spi1BusyAt d) m .started (t + 1) := by
        simp [dropWait, isDoneStep, hbusy]
      rw [this]
      exact ih (t + 1) (by omega) (by omega)

/-- C1: abandoning a pending single-byte write (dropping the
`ByteWriting` handle before awaiting it) still blocks until the
hardware busy indicator clears.  For a transmission that stays busy
for `d` polls, the drop loop spins at every instant `t < d`
(`is_done` reports false while the busy flag is raised) and returns
exactly at instant `d`, the first poll at which the busy flag is
clear; at that instant the byte is already physically on the wire, so
any subsequent operation on the bus starts only after the byte is
out: cancellation is logical, never physical. -/
theorem claim1_drop_blocks_until_sent (d fuel : Nat) (hfuel : d < fuel) :
    dropWait (spi1BusyAt d) fuel .started 0 = some d ∧
    (∀ t, t < d → (isDoneStep (spi1BusyAt d t) .started).1 = false) ∧
    (∀ t, dropWait (spi1BusyAt d) fuel .started 0 = some t →
      byteOnWire d t = true) ∧
    (∀ t, t < d → byteOnWire d t = false) := by
  have hmain : dropWait (spi1BusyAt d) fuel .started 0 = some d :=
    dropWait_busyUntil d fuel 0 (by omega) (by omega)
  refine ⟨hmain, ?_, ?_, ?_⟩
  · intro t ht
    have hbusy : spi1BusyAt d t = true := by simp [spi1BusyAt]; omega
    simp [isDoneStep, hbusy]
  · intro t hsome
    rw [hmain] at hsome
    cases hsome
    simp [byteOnWire]
  · intro t ht
    simp [byteOnWire]; omega

/-- Witness for C1: a transmission lasting 3 polls, observed with
fuel 10: the drop loop returns at instant 3 and the byte is on the
wire at that instant. -/
theorem claim1_drop_blocks_until_sent_witness :
    dropWait (spi1BusyAt 3) 10 .started 0 = some 3 ∧
    byteOnWire 3 3 = true := by
  have h := claim1_drop_blocks_until_sent 3 10 (by decide)
  exact ⟨h.1, h.2.2.1 3 h.1⟩

end St7735

namespace St7735

/-! ## The batch adapters (`adapters.rs`)

`AdapterU8::write_u8_iter` runs
`for element in iter { self.write_u8(element).await; }`: each
single-byte write is awaited to hardware completion before the next
one starts.  `adapterBatchRun` models it on the discrete time line:
the write of the `k`-th byte issued at time `t` completes at
`t + lat k` (`lat` is the hardware transmission latency of each byte);
the loop starts the next write exactly at that completion instant.

`AdapterU8s::write_u8` of the reverse adapter writes a one-element
slice through the native batch primitive.  `dirAWire`/`dirBWire` give
the observable wire byte sequence of a request list under the two
adapter directions. -/

/-- One timed single-byte write: issue instant, completion instant and
the byte transmitted. -/
structure TimedWrite where
  start : Nat
  doneAt : Nat
  byte : Nat
deriving DecidableEq, Repr

/-- `write_u8` of the underlying byte transport, issued at time `t`
for the `k`-th byte: hardware completion at `t + lat k`. -/
def timedWriteU8 (lat : Nat → Nat) (t k b : Nat) : TimedWrite :=
  ⟨t, t + lat k, b⟩

/-- `AdapterU8::write_u8_iter`: issue the head byte, await its
completion, then recurse from the completion instant. -/
def adapterBatchRun (lat : Nat → Nat) : Nat → Nat → List Nat → List TimedWrite
  | _, _, [] => []
  | t, k, b :: bs =>
    timedWriteU8 lat t k b :: adapterBatchRun lat (t + lat k) (k + 1) bs

/-- A request against the transport: a single-byte write or a batch
write. -/
inductive Req where
  | single (b : Nat)
  | batch (bs : List Nat)

/-- Native byte device: `write_u8` appends one byte to the wire. -/
def byteDeviceWriteU8 (w : List Nat) (b : Nat) : List Nat := w ++ [b]

/-- Native batch device: `write_u8s` puts the whole slice on the wire. -/
def batchDeviceWriteU8s (w : List Nat) (bs : List Nat) : List Nat := w ++ bs

/-- `AdapterU8::write_u8_iter` over a byte device: one `write_u8` per
element, in order. -/
def adapterU8WriteU8Iter (w : List Nat) (bs : List Nat) : List Nat :=
  bs.foldl byteDeviceWriteU8 w

/-- `AdapterU8s::write_u8` over a batch device: a one-element batch
(`write_u8s(core::slice::from_ref(&self.buf))`). -/
def adapterU8sWriteU8 (w : List Nat) (b : Nat) : List Nat :=
  batchDeviceWriteU8s w [b]

/-- Direction A: the device implements `write_u8` natively and
`AdapterU8` derives the batch write. -/
def dirARun (w : List Nat) : Req → List Nat
  | .single b => byteDeviceWriteU8 w b
  | .batch bs => adapterU8WriteU8Iter w bs

/-- Direction B: the device implements `write_u8s` natively and
`AdapterU8s` derives the single-byte write. -/
def dirBRun (w : List Nat) : Req → List Nat
  | .single b => adapterU8sWriteU8 w b
  | .batch bs => batchDeviceWriteU8s w bs

def dirAWire (reqs : List Req) : List Nat := reqs.foldl dirARun []

def dirBWire (reqs : List Req) : List Nat := reqs.foldl dirBRun []

/-- The bytes a request asks to have written. -/
def reqBytes : Req → List Nat
  | .single b => [b]
  | .batch bs => bs

theorem adapterU8WriteU8Iter_eq (bs : List Nat) :
    ∀ w : List Nat, adapterU8WriteU8Iter w bs = w ++ bs := by
  induction bs with
  | nil => intro w; simp [adapterU8WriteU8Iter]
  | cons b rest ih =>
    intro w
    show adapterU8WriteU8Iter (byteDeviceWriteU8 w b) rest = _
    rw [ih]
    simp [byteDeviceWriteU8]

theorem dirRun_agree (w : List Nat) (r : Req) :
    dirARun w r = w ++ reqBytes r ∧ dirBRun w r = w ++ reqBytes r := by
  cases r with
  | single b => exact ⟨rfl, rfl⟩
  | batch bs => exact ⟨adapterU8WriteU8Iter_eq bs w, rfl⟩

theorem dirWire_eq (reqs : List Req) :
    ∀ w : List Nat,
      reqs.foldl dirARun w = w ++ reqs.flatMap reqBytes ∧
      reqs.foldl dirBRun w = w ++ reqs.flatMap reqBytes := by
  induction reqs with
  | nil => intro w; simp
  | cons r rest ih =>
    intro w
    constructor
    · show rest.foldl dirARun (dirARun w r) = _
      rw [(ih (dirARun w r)).1, (dirRun_agree w r).1]
      simp
    · show rest.foldl dirBRun (dirBRun w r) = _
      rw [(ih (dirBRun w r)).2, (dirRun_agree w r).2]
      simp

theorem adapterBatchRun_bytes (lat : Nat → Nat) (bs : List Nat) :
    ∀ t k : Nat, (adapterBatchRun lat t k bs).map TimedWrite.byte = bs := by
  induction bs with
  | nil => intro t k; rfl
  | cons b rest ih =>
    intro t k
    show b :: (adapterBatchRun lat (t + lat k) (k + 1) rest).map
        TimedWrite.byte = _
    rw [ih]

theorem adapterBatchRun_chain (lat : Nat → Nat) (bs : List Nat) :
    ∀ t k : Nat,
      List.Chain' (fun a c => c.start = a.doneAt)
        (adapterBatchRun lat t k bs) := by
  induction bs with
  | nil => intro t k; exact List.chain'_nil
  | cons b rest ih =>
    intro t k
    rw [show adapterBatchRun lat t k (b :: rest)
        = timedWriteU8 lat t k b
          :: adapterBatchRun lat (t + lat k) (k + 1) rest from rfl]
    rw [List.chain'_cons']
    refine ⟨?_, ih (t + lat k) (k + 1)⟩
    intro c hc
    cases rest with
    | nil =>
      rw [show adapterBatchRun lat (t + lat k) (k + 1) [] = [] from rfl] at hc
      simp at hc
    | cons b2 rest2 =>
      rw [show adapterBatchRun lat (t + lat k) (k + 1) (b2 :: rest2)
          = timedWriteU8 lat (t + lat k) (k + 1) b2
            :: adapterBatchRun lat (t + lat k + lat (k + 1)) (k + 2) rest2
        from rfl] at hc
      simp only [List.head?_cons, Option.mem_def, Option.some.injEq] at hc
      subst hc
      rfl

/-- C2: the derived batch adapter (`AdapterU8`) emits exactly the
input byte sequence in order, with each byte's write issued precisely
at the completion instant of the previous byte's write — it never
starts byte `n+1` before byte `n`'s write completes, and the sequence
equals issuing the single-byte writes back-to-back.  The reverse
adapter (`AdapterU8s`) synthesizes a single-byte write as a
one-element batch write, and for every request list the observable
wire byte sequence is identical under the two adapter directions. -/
theorem claim2_adapter_directions_equivalent (lat : Nat → Nat)
    (t k : Nat) (bs : List Nat) (w : List Nat) (b : Nat)
    (reqs : List Req) :
    (adapterBatchRun lat t k bs).map TimedWrite.byte = bs ∧
    List.Chain' (fun a c => c.start = a.doneAt)
      (adapterBatchRun lat t k bs) ∧
    (∀ x ∈ adapterBatchRun lat t k bs, x.start ≤ x.doneAt) ∧
    adapterU8sWriteU8 w b = batchDeviceWriteU8s w [b] ∧
    dirAWire reqs = dirBWire reqs := by
  refine ⟨adapterBatchRun_bytes lat bs t k, adapterBatchRun_chain lat bs t k,
    ?_, rfl, ?_⟩
  · clear w b
    induction bs generalizing t k with
    | nil => intro x hx; simp [adapterBatchRun] at hx
    | cons hd tl ih =>
      intro x hx
      rw [show adapterBatchRun lat t k (hd :: tl)
          = timedWriteU8 lat t k hd
            :: adapterBatchRun lat (t + lat k) (k + 1) tl from rfl] at hx
      rcases List.mem_cons.mp hx with hx1 | hx2
      · subst hx1; simp [timedWriteU8]
      · exact ih (t + lat k) (k + 1) x hx2
  · show dirAWire reqs = dirBWire reqs
    rw [dirAWire, dirBWire, (dirWire_eq reqs []).1, (dirWire_eq reqs []).2]

/-- Witness for C2 at a three-byte batch with a two-cycle latency per
byte and a concrete mixed request list. -/
theorem claim2_adapter_directions_equivalent_witness :
    (adapterBatchRun (fun _ => 2) 0 0 [7, 8, 9]).map TimedWrite.byte
      = [7, 8, 9] ∧
    dirAWire [.single 5, .batch [6, 7]]
      = dirBWire [.single 5, .batch [6, 7]] := by
  have h := claim2_adapter_directions_equivalent (fun _ => 2) 0 0 [7, 8, 9]
    [] 5 [.single 5, .batch [6, 7]]
  exact ⟨h.1, h.2.2.2.2⟩

end St7735


